import Mathlib

/-
Verification of the Entity-Component Manager (ECM) of this repository.

The ECM itself (entity_component_manager.hpp) is translated from the source.
The sparse set, component wrapper, tag traits and the ASSERT / getUnique
helpers live in files that are not part of the sources at hand; those are
modelled from the specification (each such definition carries a doc comment
starting with "Modelled from the spec").

Component instances are represented by integers; entity ids by naturals.
Machine-level details (set capacities, hashing of type_info) are irrelevant
to the claims: maps are association lists keyed by the type hash, and the
seven tag hashes are distinct constants, mirroring getTagHashes.
-/

namespace ECS

abbrev EntityId := Nat

/-- Association-list lookup keyed by a natural number, mirroring
unordered_map::find (first matching key). -/
def lookupL {α : Type} (k : Nat) : List (Nat × α) → Option α
  | [] => none
  | p :: rest => if p.1 = k then some p.2 else lookupL k rest

/-- Association-list erase, mirroring unordered_map::erase (removes every
entry with the key). -/
def eraseL {α : Type} (k : Nat) : List (Nat × α) → List (Nat × α)
  | [] => []
  | p :: rest => if p.1 = k then eraseL k rest else p :: eraseL k rest

/-- Replace the value stored under a key, leaving other entries alone. -/
def updateL {α : Type} (k : Nat) (v : α) (m : List (Nat × α)) : List (Nat × α) :=
  m.map (fun p => if p.1 = k then (k, v) else p)

/-- unordered_map::emplace / insert: a no-op when the key is present. -/
def emplaceL {α : Type} (k : Nat) (v : α) (m : List (Nat × α)) : List (Nat × α) :=
  if (lookupL k m).isSome then m else m ++ [(k, v)]

/-- Map over the stored values, keeping keys: used for clearEntity, which
erases one id from every stored set. -/
def mapValsL {α : Type} (f : α → α) (m : List (Nat × α)) : List (Nat × α) :=
  m.map (fun p => (p.1, f p.2))

/-- Modelled from the spec: the component wrapper `Components<T>`
(components.hpp is not in the sources).  It holds an ordered sequence of
instances, the EMPTY flag set when the wrapper was materialised as a
sentinel, and an optional transformation applied lazily on read. -/
structure Components where
  elems : List Int
  empty : Bool
  transform : Option (Int → Int)

/-- Modelled from the spec: `emplace_back` appends one instance; appending
to a sentinel revives it (the spec invariant "EMPTY implies size 0" forces
the flag to be cleared).  The wrapper-level NoStack guard never fires at
the ECM call sites, which check the tag before calling. -/
def Components.emplaceBack (w : Components) (v : Int) : Components :=
  { w with elems := w.elems ++ [v], empty := false }

/-- Modelled from the spec: read paths (peek, inspect, each) see
`transform(element)` when a transform is set; writes are untransformed. -/
def readAll (w : Components) : List Int :=
  match w.transform with
  | none => w.elems
  | some f => w.elems.map f

/-- Modelled from the spec: the sparse set (sparse_set.hpp is not in the
sources): dense entries of (entity id, wrapper) plus a locked bit.  The
sparse index is irrelevant to the claims and is left implicit. -/
structure SparseSet where
  entries : List (EntityId × Components)
  locked : Bool

def emptySet : SparseSet := ⟨[], false⟩

/-- Modelled from the spec: `get(id)` returns the wrapper when present,
a null handle otherwise; it never creates a sentinel. -/
def SparseSet.get (cSet : SparseSet) (eId : EntityId) : Option Components :=
  lookupL eId cSet.entries

/-- Modelled from the spec: `insert(id, W)` appends at the dense tail;
`emplace`/`insert` check the locked bit and refuse when it is set, and an
existing entry is only replaced through `overwrite`. -/
def SparseSet.insert (cSet : SparseSet) (eId : EntityId) (w : Components) : SparseSet :=
  if cSet.locked then cSet
  else if (cSet.get eId).isSome then cSet
  else { cSet with entries := cSet.entries ++ [(eId, w)] }

/-- Modelled from the spec: `emplace(id, args...)` constructs a wrapper
holding one freshly constructed instance, unless the set is locked, in
which case it returns a null indicator and leaves the set unchanged. -/
def SparseSet.emplace (cSet : SparseSet) (eId : EntityId) (v : Int) :
    Option Components × SparseSet :=
  if cSet.locked then (none, cSet)
  else
    let w : Components := ⟨[v], false, none⟩
    (some w, { cSet with entries := cSet.entries ++ [(eId, w)] })

/-- Modelled from the spec: `overwrite(id, W)` replaces the wrapper stored
for the id. -/
def SparseSet.overwrite (cSet : SparseSet) (eId : EntityId) (w : Components) : SparseSet :=
  { cSet with entries := cSet.entries.map (fun p => if p.1 = eId then (eId, w) else p) }

/-- Modelled from the spec: `erase(id)` removes the entry for the id
(swap-with-last keeps density; the claims do not depend on dense order,
so removal order is represented by a filter). -/
def SparseSet.erase (cSet : SparseSet) (eId : EntityId) : SparseSet :=
  { cSet with entries := eraseL eId cSet.entries }

def SparseSet.lock (cSet : SparseSet) : SparseSet := { cSet with locked := true }

def SparseSet.unlock (cSet : SparseSet) : SparseSet := { cSet with locked := false }

/-- Compile-time tag traits of a component type, plus its type hash.
Modelled from the spec: tags.hpp is not in the sources; the predicates are
independent booleans and `shouldStack` is the Stack tag (NoStack being the
default semantics). -/
structure CompType where
  hash : Nat
  event : Bool
  effect : Bool
  noStack : Bool
  stack : Bool
  transform : Bool
  required : Bool
  unique : Bool

/-- The seven tag hashes computed by getTagHashes: a zero stands for a
tag the type does not carry.  The type_info hashes are opaque; distinct
constants model them. -/
def getTagHashes (ct : CompType) : List Nat :=
  [if ct.event then 1 else 0,
   if ct.effect then 2 else 0,
   if ct.noStack then 3 else 0,
   if ct.stack then 4 else 0,
   if ct.transform then 5 else 0,
   if ct.required then 6 else 0,
   if ct.unique then 7 else 0]

/-- The non-zero tag hashes of a type: the tags under which
createComponentSet indexes it. -/
def tagsOf (ct : CompType) : List Nat := (getTagHashes ct).filter (fun th => decide (th ≠ 0))

/-- The EntityComponentManager state: component-type index, tag index,
transformation registry, and a counter of emitted warnings (the logging
sink). -/
structure Ecm where
  componentMap : List (Nat × SparseSet)
  tagMap : List (Nat × List Nat)
  transformationMap : List (Nat × (EntityId → Int → Int))
  warnings : Nat

def ecmEmpty : Ecm := ⟨[], [], [], 0⟩

/-- The set currently stored for a component type (the empty set when the
type has no entry yet). -/
def theSet (ct : CompType) (s : Ecm) : SparseSet :=
  (lookupL ct.hash s.componentMap).getD emptySet

/-- createComponentSet: store a fresh set under the type hash, then index
the hash under each non-zero tag hash of the type (find-or-create the tag
entry, then a set-insert of the component hash). -/
def tagInsert (th : Nat) (h : Nat) (tm : List (Nat × List Nat)) : List (Nat × List Nat) :=
  match lookupL th tm with
  | none => tm ++ [(th, [h])]
  | some hs => updateL th (if h ∈ hs then hs else hs ++ [h]) tm

def createComponentSet (ct : CompType) (s : Ecm) : Ecm :=
  { s with
    componentMap := emplaceL ct.hash emptySet s.componentMap
    tagMap := (getTagHashes ct).foldl
      (fun tm th => if th = 0 then tm else tagInsert th ct.hash tm) s.tagMap }

/-- getComponentSet: fetch the stored set, creating it on first reference
(the capacity arguments have no observable effect and are dropped). -/
def getComponentSet (ct : CompType) (s : Ecm) : Ecm :=
  if (lookupL ct.hash s.componentMap).isSome then s else createComponentSet ct s

/-- getTransformation: look up the registered transformation for the type
(the reinterpret casts are identities in the model). -/
def getTransformation (ct : CompType) (s : Ecm) : Option (EntityId → Int → Int) :=
  lookupL ct.hash s.transformationMap

/-- setTransformer: when a transformation is registered for the type, bind
it to the entity id and store it on the wrapper; otherwise do nothing. -/
def setTransformer (ct : CompType) (eId : EntityId) (w : Components) (s : Ecm) : Components :=
  match getTransformation ct s with
  | none => w
  | some fn => { w with transform := some (fn eId) }

/-- getOrCreateComponent: return the stored wrapper; when absent, insert an
EMPTY sentinel, unlocking and re-locking the set when it is locked, then
re-read it (the final read cannot fail; its fallback is the sentinel). -/
def getOrCreateComponent (cSet : SparseSet) (eId : EntityId) :
    Components × SparseSet :=
  match cSet.get eId with
  | some w => (w, cSet)
  | none =>
    let dummy : Components := ⟨[], true, none⟩
    let cSet' :=
      if cSet.locked then ((cSet.unlock).insert eId dummy).lock
      else cSet.insert eId dummy
    ((cSet'.get eId).getD dummy, cSet')

/-- getComponents: fetch or create the set; a falsy (empty) set for a
Required type fails the ASSERT.  Modelled from the spec: the ASSERT macro
is not in the sources and MissingRequiredComponent is fatal per the error
taxonomy, so the fatal path returns no wrapper; set truthiness is taken as
having at least one dense entry.  Otherwise delegate to
getOrCreateComponent and store the updated set. -/
def getComponents (ct : CompType) (eId : EntityId) (s : Ecm) : Option Components × Ecm :=
  let s1 := getComponentSet ct s
  let cSet := theSet ct s1
  if cSet.entries.length = 0 ∧ ct.required = true then (none, s1)
  else
    let r := getOrCreateComponent cSet eId
    (some r.1, { s1 with componentMap := updateL ct.hash r.2 s1.componentMap })

/-- addComponent: fetch or create the set; an add on a locked set surfaces
a warning (modelled from the spec: LockedSetMutation is refused and
surfaced as a warning, the refusal itself coming from the null emplace).
When the wrapper is absent, emplace a fresh one (null when locked) and
attach the transformer; when present and the type does not stack while the
wrapper already holds an instance, warn and do nothing; otherwise append
and attach the transformer. -/
def addComponent (ct : CompType) (eId : EntityId) (v : Int) (s : Ecm) : Ecm :=
  let s1 := getComponentSet ct s
  let cSet := theSet ct s1
  let s2 := if cSet.locked then { s1 with warnings := s1.warnings + 1 } else s1
  match cSet.get eId with
  | none =>
    match cSet.emplace eId v with
    | (none, _) => s2
    | (some w, cSetMid) =>
      let w' := setTransformer ct eId w s2
      { s2 with componentMap := updateL ct.hash (cSetMid.overwrite eId w') s2.componentMap }
  | some comps =>
    if ct.stack = false ∧ 1 ≤ comps.elems.length then
      { s2 with warnings := s2.warnings + 1 }
    else
      let comps' := setTransformer ct eId (comps.emplaceBack v) s2
      { s2 with componentMap := updateL ct.hash (cSet.overwrite eId comps') s2.componentMap }

/-- add: a no-op for entity id 0; unique types add then lock the set
(addUnique); other types delegate to addComponent. -/
def add (ct : CompType) (eId : EntityId) (v : Int) (s : Ecm) : Ecm :=
  if eId = 0 then s
  else if ct.unique = true then
    let s' := addComponent ct eId v s
    { s' with componentMap := updateL ct.hash (theSet ct s').lock s'.componentMap }
  else addComponent ct eId v s

/-- Modelled from the spec: getUnique is not in the sources; per the
singleton get, it scans the set and yields the id of the first non-empty
entry, or id 0 when there is none. -/
def getUniqueOwner (cSet : SparseSet) : EntityId :=
  (cSet.entries.foldl
    (fun (acc : EntityId × Option Components) p =>
      if p.2.empty = true then acc
      else if acc.1 = 0 then (p.1, some p.2) else acc) (0, none)).1

/-- overwrite: a no-op for entity id 0.  For a unique type, overwriteUnique
receives the sparse set by value, so the owner ASSERT (modelled from the
spec: a warning outside debug builds) and the absent-wrapper warning still
fire, but the replacement is applied to a discarded copy and the stored
set is unchanged.  For other types, a missing wrapper warns and an
existing one is replaced by a wrapper holding exactly one freshly
constructed instance. -/
def overwrite (ct : CompType) (eId : EntityId) (v : Int) (s : Ecm) : Ecm :=
  if eId = 0 then s
  else
    let s1 := getComponentSet ct s
    let cSet := theSet ct s1
    if ct.unique = true then
      let owner := getUniqueOwner cSet
      let s2 := if eId = owner then s1 else { s1 with warnings := s1.warnings + 1 }
      match cSet.get eId with
      | none => { s2 with warnings := s2.warnings + 1 }
      | some _ => s2
    else
      match cSet.get eId with
      | none => { s1 with warnings := s1.warnings + 1 }
      | some _ =>
        { s1 with componentMap :=
            updateL ct.hash (cSet.overwrite eId ⟨[v], false, none⟩) s1.componentMap }

/-- The singleton get for unique types.  The scan mirrors the source: the
id starts at 0, the wrapper pointer is an uninitialized local (the `junk`
parameter stands for its indeterminate value), and `each` skips EMPTY
wrappers and keeps assigning only while the id is still 0.  When the
pointer compares non-null after the scan the pair is returned as-is;
otherwise a sentinel is materialised for entity 0 via get. -/
def getSingleton (ct : CompType) (junk : Option Components) (s : Ecm) :
    (EntityId × Components) × Ecm :=
  let s1 := getComponentSet ct s
  let cSet := theSet ct s1
  let r := cSet.entries.foldl
    (fun (acc : EntityId × Option Components) p =>
      if p.2.empty = true then acc
      else if acc.1 = 0 then (p.1, some p.2) else acc) (0, junk)
  match r.2 with
  | some w => ((r.1, w), s1)
  | none =>
    match getComponents ct 0 s1 with
    | (some w, s2) => ((0, w), s2)
    | (none, s2) => ((0, ⟨[], true, none⟩), s2)

/-- prune: collect (via eachWithEmpty) the ids whose wrappers hold no
element; when every dense entry is such, drop the whole set, otherwise
erase the collected ids one by one, dropping the set if it drained. -/
def prune (ct : CompType) (s : Ecm) : Ecm :=
  match lookupL ct.hash s.componentMap with
  | none => s
  | some cSet =>
    let ids := (cSet.entries.filter (fun p => p.2.elems.isEmpty)).map (fun p => p.1)
    if ids.length = cSet.entries.length then
      { s with componentMap := eraseL ct.hash s.componentMap }
    else
      let cSet' := ids.foldl (fun cs i => cs.erase i) cSet
      if cSet'.entries.length = 0 then
        { s with componentMap := eraseL ct.hash s.componentMap }
      else { s with componentMap := updateL ct.hash cSet' s.componentMap }

/-- clear: drop the entire set for the type; the tag index is untouched. -/
def clear (ct : CompType) (s : Ecm) : Ecm :=
  { s with componentMap := eraseL ct.hash s.componentMap }

/-- clearByTag for a tag type with the given tag hash: drop every set whose
hash is indexed under the tag, then drop the tag entry itself. -/
def clearByTag (th : Nat) (s : Ecm) : Ecm :=
  if th = 0 then s
  else
    match lookupL th s.tagMap with
    | none => s
    | some hs =>
      { s with
        componentMap := hs.foldl (fun m h => eraseL h m) s.componentMap
        tagMap := eraseL th s.tagMap }

/-- clearEntity: erase the id from every stored set. -/
def clearEntity (eId : EntityId) (s : Ecm) : Ecm :=
  { s with componentMap := mapValsL (fun cSet => cSet.erase eId) s.componentMap }

/-- clearByEntity for one listed type: fetch or create the set, then erase
the id from it. -/
def clearByEntity (ct : CompType) (eId : EntityId) (s : Ecm) : Ecm :=
  let s1 := getComponentSet ct s
  { s1 with componentMap := updateL ct.hash ((theSet ct s1).erase eId) s1.componentMap }

/-- getEntityIds: the dense id array of the type's set, which is created on
first reference. -/
def getEntityIds (ct : CompType) (s : Ecm) : List EntityId :=
  (theSet ct (getComponentSet ct s)).entries.map (fun p => p.1)

/-- registerTransformation: an unordered_map emplace of the erased
function under the type hash — a no-op when a transformation is already
registered for the type. -/
def registerTransformation (ct : CompType) (fn : EntityId → Int → Int) (s : Ecm) : Ecm :=
  { s with transformationMap := emplaceL ct.hash fn s.transformationMap }

/-- A plain component type: no tags, hence NoStack default semantics. -/
def ctPlain : CompType := ⟨11, false, false, false, false, false, false, false⟩

/-- A Required-tagged component type. -/
def ctReq : CompType := ⟨12, false, false, false, false, false, true, false⟩

/-- A Unique-tagged component type. -/
def ctUniq : CompType := ⟨13, false, false, false, false, false, false, true⟩

/-- An Event-tagged component type. -/
def ctEvent : CompType := ⟨14, true, false, false, false, false, false, false⟩

/-- A Stack-tagged component type. -/
def ctStack : CompType := ⟨15, false, false, false, true, false, false, false⟩

theorem lookupL_updateL_self {α : Type} (k : Nat) (v : α) (m : List (Nat × α)) :
    lookupL k (updateL k v m) = (lookupL k m).map (fun _ => v) := by
  induction m with
  | nil => rfl
  | cons p rest ih =>
    by_cases h : p.1 = k
    · simp [updateL, lookupL, h]
    · simpa [updateL, lookupL, h] using ih

theorem lookupL_updateL_ne {α : Type} (k k' : Nat) (v : α) (m : List (Nat × α))
    (h : k' ≠ k) : lookupL k' (updateL k v m) = lookupL k' m := by
  induction m with
  | nil => rfl
  | cons p rest ih =>
    by_cases hp : p.1 = k
    · simp [updateL, lookupL, hp, Ne.symm h]
      simpa [updateL] using ih
    · by_cases hp' : p.1 = k'
      · simp [updateL, lookupL, hp, hp', h]
      · simp [updateL, lookupL, hp, hp']
        simpa [updateL] using ih

theorem isSome_lookupL_updateL {α : Type} (k h : Nat) (v : α) (m : List (Nat × α)) :
    (lookupL h (updateL k v m)).isSome = (lookupL h m).isSome := by
  by_cases hk : h = k
  · subst hk; rw [lookupL_updateL_self]; cases lookupL h m <;> rfl
  · rw [lookupL_updateL_ne k h v m hk]

theorem lookupL_eraseL_self {α : Type} (k : Nat) (m : List (Nat × α)) :
    lookupL k (eraseL k m) = none := by
  induction m with
  | nil => rfl
  | cons p rest ih =>
    by_cases h : p.1 = k
    · simpa [eraseL, h] using ih
    · simpa [eraseL, lookupL, h] using ih

theorem lookupL_eraseL_ne {α : Type} (k h : Nat) (m : List (Nat × α))
    (hne : h ≠ k) : lookupL h (eraseL k m) = lookupL h m := by
  induction m with
  | nil => rfl
  | cons p rest ih =>
    by_cases hp : p.1 = k
    · have hph : p.1 ≠ h := by rw [hp]; exact fun e => hne e.symm
      simp [eraseL, lookupL, hp, hph, hne, Ne.symm hne]
      exact ih
    · by_cases hp' : p.1 = h
      · simp [eraseL, lookupL, hp, hp', hne, Ne.symm hne]
      · simpa [eraseL, lookupL, hp, hp'] using ih

theorem lookupL_mapValsL {α : Type} (f : α → α) (h : Nat) (m : List (Nat × α)) :
    lookupL h (mapValsL f m) = (lookupL h m).map f := by
  induction m with
  | nil => rfl
  | cons p rest ih =>
    by_cases hp : p.1 = h
    · simp [mapValsL, lookupL, hp]
    · simpa [mapValsL, lookupL, hp] using ih

theorem lookupL_append_left {α : Type} (h : Nat) (m l : List (Nat × α)) (x : α)
    (hm : lookupL h m = some x) : lookupL h (m ++ l) = some x := by
  induction m with
  | nil => simp [lookupL] at hm
  | cons p rest ih =>
    by_cases hp : p.1 = h
    · simp [lookupL, hp] at hm ⊢; exact hm
    · simp [lookupL, hp] at hm ⊢; exact ih hm

theorem lookupL_append_of_none {α : Type} (k : Nat) (v : α) (m : List (Nat × α))
    (h : lookupL k m = none) : lookupL k (m ++ [(k, v)]) = some v := by
  induction m with
  | nil => simp [lookupL]
  | cons p rest ih =>
    by_cases hp : p.1 = k
    · simp [lookupL, hp] at h
    · simp [lookupL, hp] at h ⊢; exact ih h

theorem isSome_lookupL_emplaceL {α : Type} (k h : Nat) (v : α) (m : List (Nat × α))
    (hm : (lookupL h m).isSome = true) :
    (lookupL h (emplaceL k v m)).isSome = true := by
  unfold emplaceL
  split
  · exact hm
  · obtain ⟨x, hx⟩ := Option.isSome_iff_exists.mp hm
    rw [lookupL_append_left h m [(k, v)] x hx]; rfl

theorem lookupL_emplaceL_self_isSome {α : Type} (k : Nat) (v : α) (m : List (Nat × α)) :
    (lookupL k (emplaceL k v m)).isSome = true := by
  unfold emplaceL
  split
  · assumption
  · rename_i hnone
    rw [lookupL_append_of_none k v m (Option.not_isSome_iff_eq_none.mp (by simpa using hnone))]
    rfl

theorem emplaceL_of_isSome {α : Type} (k : Nat) (v : α) (m : List (Nat × α))
    (h : (lookupL k m).isSome = true) : emplaceL k v m = m := by
  unfold emplaceL; rw [if_pos h]

theorem getComponentSet_lookup (ct : CompType) (s : Ecm) :
    lookupL ct.hash (getComponentSet ct s).componentMap = some (theSet ct s) := by
  unfold getComponentSet
  cases hl : lookupL ct.hash s.componentMap with
  | some cSet => simp [hl, theSet]
  | none =>
    simp only [hl, Option.isSome_none, Bool.false_eq_true, if_false]
    unfold createComponentSet emplaceL
    simp only [hl, Option.isSome_none, Bool.false_eq_true, if_false]
    rw [lookupL_append_of_none ct.hash emptySet s.componentMap hl]
    simp [theSet, hl]

theorem theSet_getComponentSet (ct : CompType) (s : Ecm) :
    theSet ct (getComponentSet ct s) = theSet ct s := by
  unfold theSet
  rw [getComponentSet_lookup]
  rfl

theorem getComponentSet_transformationMap (ct : CompType) (s : Ecm) :
    (getComponentSet ct s).transformationMap = s.transformationMap := by
  unfold getComponentSet createComponentSet
  split <;> rfl

theorem getComponentSet_warnings (ct : CompType) (s : Ecm) :
    (getComponentSet ct s).warnings = s.warnings := by
  unfold getComponentSet createComponentSet
  split <;> rfl

theorem getComponentSet_of_isSome (ct : CompType) (s : Ecm)
    (h : (lookupL ct.hash s.componentMap).isSome = true) : getComponentSet ct s = s := by
  unfold getComponentSet
  rw [if_pos h]

/-- The behaviour of getOrCreateComponent: the locked bit is restored, an
absent wrapper comes back as the freshly inserted EMPTY sentinel, and a
present wrapper is returned with the set untouched. -/
theorem getOrCreateComponent_spec (cSet : SparseSet) (e : EntityId) :
    (getOrCreateComponent cSet e).2.locked = cSet.locked ∧
    (cSet.get e = none →
      (getOrCreateComponent cSet e).1 = ⟨[], true, none⟩ ∧
      (getOrCreateComponent cSet e).2.get e = some ⟨[], true, none⟩) ∧
    (∀ w0, cSet.get e = some w0 →
      (getOrCreateComponent cSet e).1 = w0 ∧ (getOrCreateComponent cSet e).2 = cSet) := by
  cases hg : cSet.get e with
  | some w =>
    unfold getOrCreateComponent
    rw [hg]
    refine ⟨rfl, ?_, ?_⟩
    · intro h; cases h
    · intro w0 h
      cases h
      exact ⟨rfl, rfl⟩
  | none =>
    have hg' : lookupL e cSet.entries = none := hg
    have hins : lookupL e (cSet.entries ++ [(e, (⟨[], true, none⟩ : Components))]) =
        some (⟨[], true, none⟩ : Components) := lookupL_append_of_none e _ _ hg'
    unfold getOrCreateComponent
    rw [hg]
    refine ⟨?_, ?_, ?_⟩
    · cases hl : cSet.locked with
      | true =>
        simp [hl, SparseSet.insert, SparseSet.unlock, SparseSet.lock, SparseSet.get, hg']
      | false =>
        simp [hl, SparseSet.insert, SparseSet.unlock, SparseSet.lock, SparseSet.get, hg']
    · intro _
      cases hl : cSet.locked with
      | true =>
        constructor
        · simp [hl, SparseSet.insert, SparseSet.unlock, SparseSet.lock, SparseSet.get,
            hg', hins]
        · simp [hl, SparseSet.insert, SparseSet.unlock, SparseSet.lock, SparseSet.get,
            hg', hins]
      | false =>
        constructor
        · simp [hl, SparseSet.insert, SparseSet.unlock, SparseSet.lock, SparseSet.get,
            hg', hins]
        · simp [hl, SparseSet.insert, SparseSet.unlock, SparseSet.lock, SparseSet.get,
            hg', hins]
    · intro w0 h; cases h

/-- Reduction of getComponents when the Required assertion cannot fire. -/
theorem getComponents_not_required (ct : CompType) (e : EntityId) (s : Ecm)
    (h : ¬((theSet ct s).entries.length = 0 ∧ ct.required = true)) :
    getComponents ct e s =
      (some (getOrCreateComponent (theSet ct s) e).1,
        { getComponentSet ct s with
          componentMap :=
            updateL ct.hash (getOrCreateComponent (theSet ct s) e).2
              (getComponentSet ct s).componentMap }) := by
  simp only [getComponents]
  rw [theSet_getComponentSet, if_neg h]

theorem theSet_getComponents_snd (ct : CompType) (e : EntityId) (s : Ecm)
    (h : ¬((theSet ct s).entries.length = 0 ∧ ct.required = true)) :
    theSet ct (getComponents ct e s).2 = (getOrCreateComponent (theSet ct s) e).2 := by
  rw [getComponents_not_required ct e s h]
  show (lookupL ct.hash
      (updateL ct.hash (getOrCreateComponent (theSet ct s) e).2
        (getComponentSet ct s).componentMap)).getD emptySet = _
  rw [lookupL_updateL_self, getComponentSet_lookup]
  rfl

/-- Claim C9: add and overwrite with entity id 0 return before touching
anything, leaving the whole ECM state unchanged. -/
theorem add_overwrite_zero_noop (ct : CompType) (v : Int) (s : Ecm) :
    add ct 0 v s = s ∧ overwrite ct 0 v s = s :=
  ⟨rfl, rfl⟩

/-- Claim C10: registering a second transformation for the same type is a
no-op (unordered_map emplace does nothing when the key exists), so the
stored transformation stays the first one and all later behaviour is as if
only the first had been registered. -/
theorem register_transformation_first_wins (ct : CompType)
    (f g : EntityId → Int → Int) (s : Ecm) :
    registerTransformation ct g (registerTransformation ct f s) =
      registerTransformation ct f s ∧
    (lookupL ct.hash s.transformationMap = none →
      getTransformation ct (registerTransformation ct f s) = some f) := by
  constructor
  · simp only [registerTransformation]
    rw [emplaceL_of_isSome ct.hash g _ (lookupL_emplaceL_self_isSome ct.hash f s.transformationMap)]
  · intro hnone
    simp only [getTransformation, registerTransformation, emplaceL, hnone,
      Option.isSome_none, Bool.false_eq_true, if_false]
    exact lookupL_append_of_none ct.hash f s.transformationMap hnone

theorem register_transformation_first_wins_witness :
    (registerTransformation ctPlain (fun _ v => v + 1)
        (registerTransformation ctPlain (fun _ v => v) ecmEmpty) =
      registerTransformation ctPlain (fun _ v => v) ecmEmpty) ∧
    (lookupL ctPlain.hash ecmEmpty.transformationMap = none →
      getTransformation ctPlain (registerTransformation ctPlain (fun _ v => v) ecmEmpty) =
        some (fun _ v => v)) :=
  register_transformation_first_wins ctPlain (fun _ v => v) (fun _ v => v + 1) ecmEmpty

/-- A garbage wrapper standing for the referent of the uninitialized
wrapper pointer in the singleton get. -/
def junkW : Components := ⟨[99], false, none⟩

/-- Claim C3 (code bug): the singleton get never initialises its local
wrapper pointer.  When the set holds no non-EMPTY entry and the
indeterminate pointer value is non-null, the scan leaves it untouched, the
function returns the garbage referent, and no EMPTY sentinel is
materialised — contradicting the code's own comment and the spec.  With a
null initial value the intended pair (0, EMPTY sentinel) is produced. -/
theorem singleton_get_uninitialized_cex :
    (getSingleton ctUniq (some junkW) ecmEmpty).1 = (0, junkW) ∧
    (theSet ctUniq (getSingleton ctUniq (some junkW) ecmEmpty).2).get 0 = none ∧
    (getSingleton ctUniq none ecmEmpty).1 = (0, (⟨[], true, none⟩ : Components)) ∧
    (theSet ctUniq (getSingleton ctUniq none ecmEmpty).2).get 0 =
      some (⟨[], true, none⟩ : Components) :=
  ⟨rfl, rfl, rfl, rfl⟩

/-- Claim C6 (code bug): overwriteUnique takes the sparse set by value, so
the replacement mutates a discarded copy: after overwrite on the sole
owner, the stored wrapper still holds the old value and the component map
is unchanged; a non-owning overwrite warns and also leaves the map
unchanged. -/
theorem overwrite_unique_copy_bug :
    ((theSet ctUniq (overwrite ctUniq 5 20 (add ctUniq 5 10 ecmEmpty))).get 5).map
        Components.elems = some [10] ∧
    (overwrite ctUniq 5 20 (add ctUniq 5 10 ecmEmpty)).componentMap =
      (add ctUniq 5 10 ecmEmpty).componentMap ∧
    (overwrite ctUniq 7 20 (add ctUniq 5 10 ecmEmpty)).componentMap =
      (add ctUniq 5 10 ecmEmpty).componentMap ∧
    (overwrite ctUniq 7 20 (add ctUniq 5 10 ecmEmpty)).warnings =
      (add ctUniq 5 10 ecmEmpty).warnings + 2 ∧
    some [10] ≠ some ([20] : List Int) :=
  ⟨rfl, rfl, rfl, rfl, by decide⟩

/-- Claim C1 (amended): for a non-Required component type, get always
returns a wrapper: an absent wrapper is materialised as the EMPTY sentinel
in the type's set, and the locked bit (unlocked around the insertion for a
locked Unique set) is left as it was. -/
theorem get_materialises_sentinel (ct : CompType) (e : EntityId) (s : Ecm)
    (hreq : ct.required = false) (he : e ≠ 0) :
    ∃ w, (getComponents ct e s).1 = some w ∧
      (theSet ct (getComponents ct e s).2).locked = (theSet ct s).locked ∧
      ((theSet ct s).get e = none →
        w = ⟨[], true, none⟩ ∧
        (theSet ct (getComponents ct e s).2).get e = some ⟨[], true, none⟩) ∧
      (∀ w0, (theSet ct s).get e = some w0 → w = w0) := by
  have hguard : ¬((theSet ct s).entries.length = 0 ∧ ct.required = true) := by
    rw [hreq]; intro h; exact Bool.false_ne_true h.2
  have heq := getComponents_not_required ct e s hguard
  have h2 := theSet_getComponents_snd ct e s hguard
  obtain ⟨hlock, hnone, hsome⟩ := getOrCreateComponent_spec (theSet ct s) e
  refine ⟨(getOrCreateComponent (theSet ct s) e).1, ?_, ?_, ?_, ?_⟩
  · rw [heq]
  · rw [h2]; exact hlock
  · intro habs
    exact ⟨(hnone habs).1, by rw [h2]; exact (hnone habs).2⟩
  · exact fun w0 h => (hsome w0 h).1

theorem get_materialises_sentinel_witness :
    ctPlain.required = false ∧ (1 : EntityId) ≠ 0 ∧
    (∃ w, (getComponents ctPlain 1 ecmEmpty).1 = some w ∧
      (theSet ctPlain (getComponents ctPlain 1 ecmEmpty).2).locked =
        (theSet ctPlain ecmEmpty).locked ∧
      ((theSet ctPlain ecmEmpty).get 1 = none →
        w = ⟨[], true, none⟩ ∧
        (theSet ctPlain (getComponents ctPlain 1 ecmEmpty).2).get 1 = some ⟨[], true, none⟩) ∧
      (∀ w0, (theSet ctPlain ecmEmpty).get 1 = some w0 → w = w0)) :=
  ⟨rfl, by decide, get_materialises_sentinel ctPlain 1 ecmEmpty rfl (by decide)⟩

/-- Claim C1 counterexample: a read of a Required type whose just-created
set is falsy fails the MissingRequiredComponent assertion (fatal per the
spec's error taxonomy) instead of returning a wrapper, so the claim's
universal quantification over component types fails. -/
theorem required_get_fatal_cex : (getComponents ctReq 1 ecmEmpty).1 = none := rfl

theorem lookupL_eq_none_of_forall {α : Type} (k : Nat) (m : List (Nat × α))
    (h : ∀ p ∈ m, p.1 ≠ k) : lookupL k m = none := by
  induction m with
  | nil => rfl
  | cons p rest ih =>
    simp only [lookupL, if_neg (h p (List.mem_cons_self p rest))]
    exact ih (fun q hq => h q (List.mem_cons_of_mem p hq))

theorem updateL_of_not_mem {α : Type} (k : Nat) (v : α) (m : List (Nat × α))
    (h : lookupL k m = none) : updateL k v m = m := by
  induction m with
  | nil => rfl
  | cons p rest ih =>
    by_cases hp : p.1 = k
    · simp [lookupL, hp] at h
    · simp only [lookupL, if_neg hp] at h
      simp [updateL, hp] at ih ⊢
      exact ih h

theorem updateL_self_of_lookup {α : Type} (k : Nat) (v : α) (m : List (Nat × α))
    (hnd : (m.map Prod.fst).Nodup) (h : lookupL k m = some v) : updateL k v m = m := by
  induction m with
  | nil => rfl
  | cons p rest ih =>
    rw [List.map_cons, List.nodup_cons] at hnd
    by_cases hp : p.1 = k
    · have hrest : lookupL k rest = none := by
        refine lookupL_eq_none_of_forall k rest (fun q hq hqk => hnd.1 ?_)
        rw [hp, ← hqk]
        exact List.mem_map_of_mem Prod.fst hq
      simp only [lookupL, if_pos hp] at h
      have hv : p.2 = v := by cases h; rfl
      simp only [updateL, List.map_cons, if_pos hp]
      rw [show List.map (fun q => if q.1 = k then (k, v) else q) rest = updateL k v rest from rfl,
        updateL_of_not_mem k v rest hrest]
      rw [show ((k, v) : Nat × α) = p from by rw [← hv, ← hp]]
    · simp only [lookupL, if_neg hp] at h
      simp only [updateL, List.map_cons, if_neg hp]
      rw [show List.map (fun q => if q.1 = k then (k, v) else q) rest = updateL k v rest from rfl,
        ih hnd.2 h]

theorem lookupL_overwrite_self {α : Type} (e : Nat) (w' : α) (l : List (Nat × α))
    (h : (lookupL e l).isSome = true) :
    lookupL e (l.map (fun p => if p.1 = e then (e, w') else p)) = some w' := by
  induction l with
  | nil => simp [lookupL] at h
  | cons p rest ih =>
    by_cases hp : p.1 = e
    · simp [lookupL, hp]
    · simp only [lookupL, if_neg hp] at h
      simpa [lookupL, hp] using ih h

theorem mapUpdate_append {α : Type} (e : Nat) (w w' : α) (old : List (Nat × α))
    (h : lookupL e old = none) :
    (old ++ [(e, w)]).map (fun p => if p.1 = e then (e, w') else p) = old ++ [(e, w')] := by
  induction old with
  | nil => simp
  | cons p rest ih =>
    by_cases hp : p.1 = e
    · simp [lookupL, hp] at h
    · simp only [lookupL, if_neg hp] at h
      simpa [hp] using ih h

theorem setTransformer_getComponentSet (ct ct' : CompType) (e : EntityId) (w : Components)
    (s : Ecm) : setTransformer ct e w (getComponentSet ct' s) = setTransformer ct e w s := by
  unfold setTransformer getTransformation
  rw [getComponentSet_transformationMap]

/-- Reduction of addComponent when the set is unlocked and the wrapper is
absent: a fresh one-element wrapper is emplaced and the transformer (when
registered) is attached. -/
theorem addComponent_fresh (ct : CompType) (e : EntityId) (v : Int) (s : Ecm)
    (hlock : (theSet ct s).locked = false)
    (habs : (theSet ct s).get e = none) :
    addComponent ct e v s =
      { getComponentSet ct s with
        componentMap := updateL ct.hash
          ⟨(theSet ct s).entries ++
            [(e, setTransformer ct e ⟨[v], false, none⟩ s)], (theSet ct s).locked⟩
          (getComponentSet ct s).componentMap } := by
  simp only [addComponent]
  rw [theSet_getComponentSet]
  simp only [hlock, Bool.false_eq_true, if_false, habs, SparseSet.emplace,
    SparseSet.overwrite, setTransformer_getComponentSet]
  rw [mapUpdate_append e _ _ (theSet ct s).entries habs]

/-- Reduction of addComponent when the set is locked and the wrapper is
absent: the lock assertion surfaces a warning and the null emplace refuses
the mutation. -/
theorem addComponent_locked_absent (ct : CompType) (e : EntityId) (v : Int) (s : Ecm)
    (hlock : (theSet ct s).locked = true)
    (habs : (theSet ct s).get e = none) :
    addComponent ct e v s =
      { getComponentSet ct s with warnings := (getComponentSet ct s).warnings + 1 } := by
  simp only [addComponent]
  rw [theSet_getComponentSet]
  simp only [hlock, if_true, habs, SparseSet.emplace, if_true]

/-- Reduction of addComponent when the wrapper exists, the set is unlocked
and the append is not refused: emplace_back plus transformer attachment. -/
theorem addComponent_append (ct : CompType) (e : EntityId) (v : Int) (s : Ecm)
    (w0 : Components)
    (hlock : (theSet ct s).locked = false)
    (hg : (theSet ct s).get e = some w0)
    (hcond : ¬(ct.stack = false ∧ 1 ≤ w0.elems.length)) :
    addComponent ct e v s =
      { getComponentSet ct s with
        componentMap := updateL ct.hash
          ((theSet ct s).overwrite e (setTransformer ct e (w0.emplaceBack v) s))
          (getComponentSet ct s).componentMap } := by
  simp only [addComponent]
  rw [theSet_getComponentSet]
  simp only [hlock, Bool.false_eq_true, if_false, hg, if_neg hcond,
    setTransformer_getComponentSet]

/-- Reduction of addComponent when the wrapper exists and the NoStack
refusal fires: one warning, nothing else. -/
theorem addComponent_refused (ct : CompType) (e : EntityId) (v : Int) (s : Ecm)
    (w0 : Components)
    (hlock : (theSet ct s).locked = false)
    (hg : (theSet ct s).get e = some w0)
    (hcond : ct.stack = false ∧ 1 ≤ w0.elems.length) :
    addComponent ct e v s =
      { getComponentSet ct s with warnings := (getComponentSet ct s).warnings + 1 } := by
  simp only [addComponent]
  rw [theSet_getComponentSet]
  simp only [hlock, Bool.false_eq_true, if_false, hg, if_pos hcond]

/-- Claim C7: a second add of a NoStack (default) component on an entity
already holding one instance is a no-op apart from exactly one warning;
the stored wrapper, hence the read value, is unchanged. -/
theorem nostack_second_add_noop (ct : CompType) (e : EntityId) (v v' : Int) (s : Ecm)
    (cSet : SparseSet) (w : Components)
    (hstack : ct.stack = false) (huniq : ct.unique = false) (he : e ≠ 0)
    (hset : lookupL ct.hash s.componentMap = some cSet)
    (hlock : cSet.locked = false)
    (hw : cSet.get e = some w) (hone : w.elems = [v]) :
    add ct e v' s = { s with warnings := s.warnings + 1 } ∧
    (theSet ct (add ct e v' s)).get e = some w := by
  have hs1 : getComponentSet ct s = s :=
    getComponentSet_of_isSome ct s (by rw [hset]; rfl)
  have hts : theSet ct s = cSet := by unfold theSet; rw [hset]; rfl
  have heq : add ct e v' s = { s with warnings := s.warnings + 1 } := by
    unfold add
    rw [if_neg he]
    simp only [huniq, Bool.false_eq_true, if_false]
    rw [addComponent_refused ct e v' s w (by rw [hts]; exact hlock) (by rw [hts]; exact hw)
      ⟨hstack, by rw [hone]; exact Nat.le_refl 1⟩]
    rw [hs1]
  refine ⟨heq, ?_⟩
  rw [heq]
  show (theSet ct ({ s with warnings := s.warnings + 1 } : Ecm)).get e = some w
  have : theSet ct ({ s with warnings := s.warnings + 1 } : Ecm) = cSet := by
    unfold theSet; rw [show ({ s with warnings := s.warnings + 1 } : Ecm).componentMap =
      s.componentMap from rfl, hset]; rfl
  rw [this]
  exact hw

theorem nostack_second_add_noop_witness :
    (add ctPlain 1 7 (add ctPlain 1 5 ecmEmpty) =
      { add ctPlain 1 5 ecmEmpty with warnings := (add ctPlain 1 5 ecmEmpty).warnings + 1 } ∧
    (theSet ctPlain (add ctPlain 1 7 (add ctPlain 1 5 ecmEmpty))).get 1 =
      some ⟨[5], false, none⟩) :=
  nostack_second_add_noop ctPlain 1 5 7 (add ctPlain 1 5 ecmEmpty)
    ⟨[(1, ⟨[5], false, none⟩)], false⟩ ⟨[5], false, none⟩
    rfl rfl (by decide) rfl rfl rfl rfl

/-- Updating the stored set of a type that already has an entry leaves the
new value as the type's set. -/
theorem theSet_set_update (ct : CompType) (s : Ecm) (n : SparseSet)
    (h : (lookupL ct.hash s.componentMap).isSome = true) :
    theSet ct ({ s with componentMap := updateL ct.hash n s.componentMap } : Ecm) = n := by
  unfold theSet
  show (lookupL ct.hash (updateL ct.hash n s.componentMap)).getD emptySet = n
  rw [lookupL_updateL_self]
  obtain ⟨x, hx⟩ := Option.isSome_iff_exists.mp h
  rw [hx]
  rfl

/-- Unfolding of add for a non-zero id on a Unique type: the normal add
followed by locking the set. -/
theorem add_unique_unfold (ct : CompType) (e : EntityId) (v : Int) (s : Ecm)
    (huniq : ct.unique = true) (he : e ≠ 0) :
    add ct e v s =
      { addComponent ct e v s with
        componentMap := updateL ct.hash (theSet ct (addComponent ct e v s)).lock
          (addComponent ct e v s).componentMap } := by
  unfold add
  rw [if_neg he, huniq, if_pos rfl]

/-- Claim C2: on a Unique type, the first add from a state without the set
installs the single owner and locks the set; any later add for a different
entity is refused with a warning only, leaving the whole state otherwise
unchanged (in particular the set still holds exactly the owner's
wrapper). -/
theorem unique_add_refusal (ct : CompType) (e e' : EntityId) (v v' : Int) (s : Ecm)
    (w : Components)
    (huniq : ct.unique = true) (he : e ≠ 0) (he' : e' ≠ 0) (hne : e' ≠ e) :
    (lookupL ct.hash s.componentMap = none → lookupL ct.hash s.transformationMap = none →
      theSet ct (add ct e v s) = ⟨[(e, ⟨[v], false, none⟩)], true⟩) ∧
    (lookupL ct.hash s.componentMap = some ⟨[(e, w)], true⟩ →
      (s.componentMap.map Prod.fst).Nodup →
      add ct e' v' s = { s with warnings := s.warnings + 1 }) := by
  constructor
  · intro hcm htr
    have hts : theSet ct s = emptySet := by unfold theSet; rw [hcm]; rfl
    have hfresh := addComponent_fresh ct e v s (by rw [hts]; rfl) (by rw [hts]; rfl)
    have hw' : setTransformer ct e ⟨[v], false, none⟩ s = ⟨[v], false, none⟩ := by
      unfold setTransformer getTransformation; rw [htr]
    rw [hts, hw'] at hfresh
    have hfresh' : addComponent ct e v s =
        { getComponentSet ct s with
          componentMap := updateL ct.hash (⟨[(e, ⟨[v], false, none⟩)], false⟩ : SparseSet)
            (getComponentSet ct s).componentMap } := by
      rw [hfresh]; rfl
    have hA : theSet ct (addComponent ct e v s) =
        (⟨[(e, ⟨[v], false, none⟩)], false⟩ : SparseSet) := by
      rw [hfresh']
      exact theSet_set_update ct (getComponentSet ct s) _
        (by rw [getComponentSet_lookup]; rfl)
    have hAcm : (lookupL ct.hash (addComponent ct e v s).componentMap).isSome = true := by
      rw [hfresh']
      show (lookupL ct.hash (updateL ct.hash _ (getComponentSet ct s).componentMap)).isSome = true
      rw [isSome_lookupL_updateL, getComponentSet_lookup]
      rfl
    rw [add_unique_unfold ct e v s huniq he, hA]
    rw [theSet_set_update ct (addComponent ct e v s) _ hAcm]
    rfl
  · intro hcm hnd
    have hs1 : getComponentSet ct s = s := getComponentSet_of_isSome ct s (by rw [hcm]; rfl)
    have hts : theSet ct s = ⟨[(e, w)], true⟩ := by unfold theSet; rw [hcm]; rfl
    have habs : (theSet ct s).get e' = none := by
      rw [hts]
      show lookupL e' [(e, w)] = none
      refine lookupL_eq_none_of_forall e' [(e, w)] (fun p hp => ?_)
      rw [List.mem_singleton.mp hp]
      exact fun h => hne h.symm
    have hlocked := addComponent_locked_absent ct e' v' s (by rw [hts]) habs
    rw [hs1] at hlocked
    have hA : theSet ct (addComponent ct e' v' s) = (⟨[(e, w)], true⟩ : SparseSet) := by
      rw [hlocked]
      unfold theSet
      rw [show ({ s with warnings := s.warnings + 1 } : Ecm).componentMap =
        s.componentMap from rfl, hcm]
      rfl
    rw [add_unique_unfold ct e' v' s huniq he', hA, hlocked]
    show ({ ({ s with warnings := s.warnings + 1 } : Ecm) with
      componentMap := updateL ct.hash (⟨[(e, w)], true⟩ : SparseSet).lock
        s.componentMap } : Ecm) = _
    rw [show (⟨[(e, w)], true⟩ : SparseSet).lock = ⟨[(e, w)], true⟩ from rfl]
    rw [updateL_self_of_lookup ct.hash _ s.componentMap hnd hcm]

theorem unique_add_refusal_witness :
    lookupL ctUniq.hash (add ctUniq 42 1 ecmEmpty).componentMap =
      some ⟨[(42, ⟨[1], false, none⟩)], true⟩ ∧
    ((add ctUniq 42 1 ecmEmpty).componentMap.map Prod.fst).Nodup ∧
    add ctUniq 43 2 (add ctUniq 42 1 ecmEmpty) =
      { add ctUniq 42 1 ecmEmpty with
        warnings := (add ctUniq 42 1 ecmEmpty).warnings + 1 } :=
  ⟨rfl, by decide,
    (unique_add_refusal ctUniq 42 43 1 2 (add ctUniq 42 1 ecmEmpty)
      ⟨[1], false, none⟩ rfl (by decide) (by decide) (by decide)).2 rfl (by decide)⟩

/-- Unfolding of add for a non-zero id on a non-Unique type. -/
theorem add_nonunique_unfold (ct : CompType) (e : EntityId) (v : Int) (s : Ecm)
    (huniq : ct.unique = false) (he : e ≠ 0) :
    add ct e v s = addComponent ct e v s := by
  unfold add
  rw [if_neg he, huniq, if_neg Bool.false_ne_true]

/-- Claim C5 counterexample: the transformer is only attached to a wrapper
by addComponent, so a transformation registered after an add is not
applied to reads of the existing wrapper, and an overwrite replaces the
wrapper by one without a transformer; the claim requires those reads to
yield 11 and 21 respectively. -/
theorem transform_not_applied_to_prior_add_cex :
    ((getComponents ctPlain 1 (registerTransformation ctPlain (fun _ x => x + 1)
        (add ctPlain 1 10 ecmEmpty))).1).map readAll = some [10] ∧
    ((getComponents ctPlain 1 (overwrite ctPlain 1 20 (registerTransformation ctPlain
        (fun _ x => x + 1) (add ctPlain 1 10 ecmEmpty)))).1).map readAll = some [20] ∧
    some [10] ≠ some ([11] : List Int) ∧ some [20] ≠ some ([21] : List Int) :=
  ⟨rfl, rfl, by decide, by decide⟩

/-- Whatever add stores through addComponent stays readable afterwards:
the non-Unique branch returns the addComponent state as-is, and the Unique
branch only re-locks the set, leaving its entries unchanged. -/
theorem theSet_add_get (ct : CompType) (e : EntityId) (v : Int) (s : Ecm)
    (he : e ≠ 0) (n : SparseSet)
    (hN : theSet ct (addComponent ct e v s) = n)
    (hAcm : (lookupL ct.hash (addComponent ct e v s).componentMap).isSome = true) :
    ∀ x, lookupL e n.entries = some x → (theSet ct (add ct e v s)).get e = some x := by
  intro x hx
  cases hb : ct.unique with
  | true =>
    rw [add_unique_unfold ct e v s hb he, hN]
    rw [theSet_set_update ct (addComponent ct e v s) _ hAcm]
    exact hx
  | false =>
    rw [add_nonunique_unfold ct e v s hb he, hN]
    exact hx

/-- Claim C5 (amended): a registered transformation is applied to reads of
a wrapper once the wrapper is next written through add — for every
component type: a fresh wrapper always, an append whenever the stacking
policy admits it (Stack-tagged, or an element-free wrapper) — covering the
pre-existing elements of that wrapper as well, while the stored values
remain untransformed; wrappers not written through add after the
registration, including wrappers replaced by overwrite, are read
untransformed. -/
theorem transform_applied_on_add_after_registration (ct : CompType) (e : EntityId)
    (v : Int) (s : Ecm) (fn : EntityId → Int → Int)
    (he : e ≠ 0)
    (hf : lookupL ct.hash s.transformationMap = some fn)
    (hlock : (theSet ct s).locked = false) :
    ((theSet ct s).get e = none →
      ∃ w, (theSet ct (add ct e v s)).get e = some w ∧
        w.elems = [v] ∧ readAll w = [fn e v]) ∧
    (∀ w0, (theSet ct s).get e = some w0 → (ct.stack = true ∨ w0.elems = []) →
      ∃ w, (theSet ct (add ct e v s)).get e = some w ∧
        w.elems = w0.elems ++ [v] ∧ readAll w = (w0.elems ++ [v]).map (fn e)) := by
  have hcs : (lookupL ct.hash (getComponentSet ct s).componentMap).isSome = true := by
    rw [getComponentSet_lookup]; rfl
  constructor
  · intro habs
    have hst : setTransformer ct e (⟨[v], false, none⟩ : Components) s =
        ⟨[v], false, some (fn e)⟩ := by
      unfold setTransformer getTransformation; rw [hf]
    have hfresh := addComponent_fresh ct e v s hlock habs
    rw [hst] at hfresh
    have hN : theSet ct (addComponent ct e v s) =
        ⟨(theSet ct s).entries ++ [(e, ⟨[v], false, some (fn e)⟩)],
          (theSet ct s).locked⟩ := by
      rw [hfresh]
      exact theSet_set_update ct (getComponentSet ct s) _ hcs
    have hAcm : (lookupL ct.hash (addComponent ct e v s).componentMap).isSome = true := by
      rw [hfresh]
      show (lookupL ct.hash
        (updateL ct.hash _ (getComponentSet ct s).componentMap)).isSome = true
      rw [isSome_lookupL_updateL]
      exact hcs
    refine ⟨⟨[v], false, some (fn e)⟩, ?_, rfl, rfl⟩
    refine theSet_add_get ct e v s he _ hN hAcm _ ?_
    exact lookupL_append_of_none e _ _ habs
  · intro w0 hg hok
    have hst : setTransformer ct e (w0.emplaceBack v) s =
        ⟨w0.elems ++ [v], false, some (fn e)⟩ := by
      unfold setTransformer getTransformation
      rw [hf]
      rfl
    have hcond : ¬(ct.stack = false ∧ 1 ≤ w0.elems.length) := by
      rintro ⟨h1, h2⟩
      rcases hok with hs | hnil
      · rw [hs] at h1
        cases h1
      · rw [hnil] at h2
        exact absurd h2 (by decide)
    have happ := addComponent_append ct e v s w0 hlock hg hcond
    rw [hst] at happ
    have hN : theSet ct (addComponent ct e v s) =
        (theSet ct s).overwrite e ⟨w0.elems ++ [v], false, some (fn e)⟩ := by
      rw [happ]
      exact theSet_set_update ct (getComponentSet ct s) _ hcs
    have hAcm : (lookupL ct.hash (addComponent ct e v s).componentMap).isSome = true := by
      rw [happ]
      show (lookupL ct.hash
        (updateL ct.hash _ (getComponentSet ct s).componentMap)).isSome = true
      rw [isSome_lookupL_updateL]
      exact hcs
    refine ⟨⟨w0.elems ++ [v], false, some (fn e)⟩, ?_, rfl, rfl⟩
    refine theSet_add_get ct e v s he _ hN hAcm _ ?_
    show lookupL e ((theSet ct s).entries.map
        (fun p => if p.1 = e then (e, (⟨w0.elems ++ [v], false, some (fn e)⟩ : Components))
          else p)) = some (⟨w0.elems ++ [v], false, some (fn e)⟩ : Components)
    exact lookupL_overwrite_self e _ (theSet ct s).entries
      (Option.isSome_iff_exists.mpr ⟨w0, hg⟩)

theorem transform_applied_on_add_after_registration_witness :
    lookupL ctPlain.hash
        (registerTransformation ctPlain (fun _ x => x + 1) ecmEmpty).transformationMap =
      some (fun _ x => x + 1) ∧
    (theSet ctPlain (registerTransformation ctPlain (fun _ x => x + 1) ecmEmpty)).locked =
      false ∧
    (((theSet ctPlain (registerTransformation ctPlain (fun _ x => x + 1) ecmEmpty)).get 1 =
        none →
      ∃ w, (theSet ctPlain (add ctPlain 1 10
          (registerTransformation ctPlain (fun _ x => x + 1) ecmEmpty))).get 1 = some w ∧
        w.elems = [10] ∧ readAll w = [(fun (_ : EntityId) (x : Int) => x + 1) 1 10]) ∧
    (∀ w0, (theSet ctPlain (registerTransformation ctPlain (fun _ x => x + 1) ecmEmpty)).get 1 =
        some w0 → (ctPlain.stack = true ∨ w0.elems = []) →
      ∃ w, (theSet ctPlain (add ctPlain 1 10
          (registerTransformation ctPlain (fun _ x => x + 1) ecmEmpty))).get 1 = some w ∧
        w.elems = w0.elems ++ [10] ∧
        readAll w = (w0.elems ++ [10]).map ((fun (_ : EntityId) (x : Int) => x + 1) 1))) :=
  ⟨rfl, rfl,
    transform_applied_on_add_after_registration ctPlain 1 10
      (registerTransformation ctPlain (fun _ x => x + 1) ecmEmpty)
      (fun _ x => x + 1) (by decide) rfl rfl⟩

theorem eraseL_eq_filter {α : Type} (k : Nat) (l : List (Nat × α)) :
    eraseL k l = l.filter (fun p => decide (p.1 ≠ k)) := by
  induction l with
  | nil => rfl
  | cons p rest ih =>
    by_cases hp : p.1 = k
    · simp [eraseL, hp, ih]
    · simp [eraseL, hp, ih]

theorem foldl_eraseL_eq_filter {α : Type} (ids : List Nat) (l : List (Nat × α)) :
    ids.foldl (fun acc i => eraseL i acc) l = l.filter (fun p => decide (p.1 ∉ ids)) := by
  induction ids generalizing l with
  | nil => simp
  | cons i ids ih =>
    rw [List.foldl_cons, ih (eraseL i l), eraseL_eq_filter, List.filter_filter]
    refine List.filter_congr (fun p _ => ?_)
    by_cases h1 : p.1 = i <;> by_cases h2 : p.1 ∈ ids <;> simp [h1, h2]

theorem foldl_erase_entries (ids : List Nat) (cSet : SparseSet) :
    ids.foldl (fun cs i => cs.erase i) cSet =
      ⟨ids.foldl (fun l i => eraseL i l) cSet.entries, cSet.locked⟩ := by
  induction ids generalizing cSet with
  | nil => rfl
  | cons i ids ih =>
    rw [List.foldl_cons, List.foldl_cons, ih]
    rfl

theorem nodupKeys_eq_of_mem {α : Type} (l : List (Nat × α))
    (hnd : (l.map Prod.fst).Nodup) (p q : Nat × α) (hp : p ∈ l) (hq : q ∈ l)
    (h : p.1 = q.1) : p = q := by
  induction l with
  | nil => cases hp
  | cons r rest ih =>
    rw [List.map_cons, List.nodup_cons] at hnd
    rcases List.mem_cons.mp hp with hp1 | hp2
    · rcases List.mem_cons.mp hq with hq1 | hq2
      · rw [hp1, hq1]
      · exfalso
        refine hnd.1 ?_
        have hr : r.1 = q.1 := by rw [← hp1]; exact h
        rw [hr]
        exact List.mem_map_of_mem Prod.fst hq2
    · rcases List.mem_cons.mp hq with hq1 | hq2
      · exfalso
        refine hnd.1 ?_
        have hr : r.1 = p.1 := by rw [← hq1]; exact h.symm
        rw [hr]
        exact List.mem_map_of_mem Prod.fst hp2
      · exact ih hnd.2 hp2 hq2

theorem lookupL_of_mem_nodup {α : Type} (l : List (Nat × α))
    (hnd : (l.map Prod.fst).Nodup) (p : Nat × α) (hp : p ∈ l) :
    lookupL p.1 l = some p.2 := by
  induction l with
  | nil => cases hp
  | cons r rest ih =>
    rw [List.map_cons, List.nodup_cons] at hnd
    rcases List.mem_cons.mp hp with hp1 | hp2
    · rw [hp1]
      simp [lookupL]
    · by_cases hr : r.1 = p.1
      · exfalso
        refine hnd.1 ?_
        rw [hr]
        exact List.mem_map_of_mem Prod.fst hp2
      · simp only [lookupL, if_neg hr]
        exact ih hnd.2 hp2

theorem getEntityIds_of_none (ct : CompType) (s : Ecm)
    (h : lookupL ct.hash s.componentMap = none) : getEntityIds ct s = [] := by
  unfold getEntityIds
  rw [theSet_getComponentSet]
  unfold theSet
  rw [h]
  rfl

theorem getEntityIds_of_isSome (ct : CompType) (s : Ecm)
    (h : (lookupL ct.hash s.componentMap).isSome = true) :
    getEntityIds ct s = (theSet ct s).entries.map (fun p => p.1) := by
  unfold getEntityIds
  rw [getComponentSet_of_isSome ct s h]

/-- Claim C4: prune removes exactly the wrappers holding no element (EMPTY
sentinels and drained wrappers alike), keeps every wrapper holding at
least one, drops the whole set from the component-type index when every
wrapper is element-free, and afterwards the id list contains no id of an
EMPTY sentinel. -/
theorem prune_removes_exactly_empty (ct : CompType) (s : Ecm) (cSet : SparseSet)
    (hset : lookupL ct.hash s.componentMap = some cSet)
    (hnd : (cSet.entries.map Prod.fst).Nodup)
    (hinv : ∀ p ∈ cSet.entries, p.2.empty = true → p.2.elems = []) :
    ((∀ p ∈ cSet.entries, p.2.elems = []) →
      lookupL ct.hash (prune ct s).componentMap = none) ∧
    (∀ p ∈ cSet.entries, p.2.elems ≠ [] →
      (theSet ct (prune ct s)).get p.1 = some p.2) ∧
    (∀ p ∈ cSet.entries, p.2.elems = [] →
      (theSet ct (prune ct s)).get p.1 = none) ∧
    (∀ p ∈ cSet.entries, p.2.empty = true → p.1 ∉ getEntityIds ct (prune ct s)) := by
  have hmem : ∀ p ∈ cSet.entries,
      (p.1 ∈ (cSet.entries.filter (fun p => p.2.elems.isEmpty)).map (fun p => p.1) ↔
        p.2.elems = []) := by
    intro p hp
    constructor
    · intro h
      obtain ⟨q, hq, hq1⟩ := List.mem_map.mp h
      have hq' := List.mem_filter.mp hq
      have hqp := nodupKeys_eq_of_mem cSet.entries hnd q p hq'.1 hp hq1
      rw [← hqp]
      exact List.isEmpty_iff.mp hq'.2
    · intro h
      refine List.mem_map.mpr ⟨p, List.mem_filter.mpr ⟨hp, ?_⟩, rfl⟩
      rw [h]
      rfl
  by_cases hlen :
      ((cSet.entries.filter (fun p => p.2.elems.isEmpty)).map (fun p => p.1)).length =
        cSet.entries.length
  · -- every wrapper is element-free: the whole set is dropped
    have hall : ∀ p ∈ cSet.entries, p.2.elems = [] := by
      have hfl : cSet.entries.filter (fun p => p.2.elems.isEmpty) = cSet.entries := by
        refine List.Sublist.eq_of_length (List.filter_sublist _) ?_
        rw [← List.length_map (cSet.entries.filter (fun p => p.2.elems.isEmpty))
          (fun p => p.1)]
        exact hlen
      intro p hp
      rw [← hfl] at hp
      exact List.isEmpty_iff.mp (List.mem_filter.mp hp).2
    have hred : prune ct s = { s with componentMap := eraseL ct.hash s.componentMap } := by
      simp only [prune, hset]
      rw [if_pos hlen]
    have hnone : lookupL ct.hash (prune ct s).componentMap = none := by
      rw [hred]
      exact lookupL_eraseL_self ct.hash s.componentMap
    have hts : theSet ct (prune ct s) = emptySet := by
      unfold theSet
      rw [hnone]
      rfl
    refine ⟨fun _ => hnone, ?_, ?_, ?_⟩
    · intro p hp hne
      exact absurd (hall p hp) hne
    · intro p hp _
      rw [hts]
      rfl
    · intro p hp _
      rw [getEntityIds_of_none ct (prune ct s) hnone]
      exact List.not_mem_nil p.1
  · -- at least one wrapper survives: exactly the element-free ids are erased
    have hGentries : (((cSet.entries.filter (fun p => p.2.elems.isEmpty)).map
        (fun p => p.1)).foldl (fun cs i => cs.erase i) cSet) =
        ⟨cSet.entries.filter (fun p => decide (p.1 ∉
          (cSet.entries.filter (fun p => p.2.elems.isEmpty)).map (fun p => p.1))),
          cSet.locked⟩ := by
      rw [foldl_erase_entries, foldl_eraseL_eq_filter]
    have hmemG : ∀ p ∈ cSet.entries,
        (p ∈ cSet.entries.filter (fun p => decide (p.1 ∉
          (cSet.entries.filter (fun p => p.2.elems.isEmpty)).map (fun p => p.1))) ↔
          p.2.elems ≠ []) := by
      intro p hp
      rw [List.mem_filter]
      constructor
      · intro h hemp
        exact (decide_eq_true_eq.mp h.2) ((hmem p hp).mpr hemp)
      · intro h
        exact ⟨hp, decide_eq_true_eq.mpr (fun hin => h ((hmem p hp).mp hin))⟩
    have hallimp : (∀ p ∈ cSet.entries, p.2.elems = []) → False := by
      intro hall
      refine hlen ?_
      have hfeq : cSet.entries.filter (fun p => p.2.elems.isEmpty) = cSet.entries :=
        List.filter_eq_self.mpr (fun p hp => by rw [hall p hp]; rfl)
      rw [hfeq, List.length_map]
    have hGne : ¬(cSet.entries.filter (fun p => decide (p.1 ∉
        (cSet.entries.filter (fun p => p.2.elems.isEmpty)).map (fun p => p.1)))).length = 0 := by
      intro h0
      have hGnil := List.length_eq_zero.mp h0
      refine hallimp (fun p hp => ?_)
      by_contra hne
      have hmm := (hmemG p hp).mpr hne
      rw [hGnil] at hmm
      exact List.not_mem_nil p hmm
    have hred : prune ct s =
        { s with
          componentMap := updateL ct.hash
            (⟨cSet.entries.filter (fun p => decide (p.1 ∉
              (cSet.entries.filter (fun p => p.2.elems.isEmpty)).map (fun p => p.1))),
              cSet.locked⟩ : SparseSet) s.componentMap } := by
      simp only [prune, hset]
      rw [if_neg hlen, hGentries]
      dsimp only
      rw [if_neg hGne]
    have hts : theSet ct (prune ct s) =
        (⟨cSet.entries.filter (fun p => decide (p.1 ∉
          (cSet.entries.filter (fun p => p.2.elems.isEmpty)).map (fun p => p.1))),
          cSet.locked⟩ : SparseSet) := by
      rw [hred]
      exact theSet_set_update ct s _ (by rw [hset]; rfl)
    have hlookP : (lookupL ct.hash (prune ct s).componentMap).isSome = true := by
      rw [hred]
      show (lookupL ct.hash (updateL ct.hash _ s.componentMap)).isSome = true
      rw [isSome_lookupL_updateL, hset]
      rfl
    have hndG : ((cSet.entries.filter (fun p => decide (p.1 ∉
        (cSet.entries.filter (fun p => p.2.elems.isEmpty)).map
          (fun p => p.1)))).map Prod.fst).Nodup :=
      List.Nodup.sublist ((List.filter_sublist _).map Prod.fst) hnd
    have hkey : ∀ p ∈ cSet.entries, p.2.elems = [] →
        ∀ q ∈ cSet.entries.filter (fun p => decide (p.1 ∉
          (cSet.entries.filter (fun p => p.2.elems.isEmpty)).map (fun p => p.1))),
          q.1 ≠ p.1 := by
      intro p hp hpe q hq hq1
      have hqent := (List.mem_filter.mp hq).1
      have hqe : q.2.elems ≠ [] := (hmemG q hqent).mp hq
      have hqp := nodupKeys_eq_of_mem cSet.entries hnd q p hqent hp hq1
      rw [hqp] at hqe
      exact hqe hpe
    refine ⟨fun hall => absurd hall (fun h => hallimp h), ?_, ?_, ?_⟩
    · intro p hp hne
      rw [hts]
      show lookupL p.1 (cSet.entries.filter (fun p => decide (p.1 ∉
        (cSet.entries.filter (fun p => p.2.elems.isEmpty)).map (fun p => p.1)))) = some p.2
      exact lookupL_of_mem_nodup _ hndG p ((hmemG p hp).mpr hne)
    · intro p hp hpe
      rw [hts]
      show lookupL p.1 (cSet.entries.filter (fun p => decide (p.1 ∉
        (cSet.entries.filter (fun p => p.2.elems.isEmpty)).map (fun p => p.1)))) = none
      exact lookupL_eq_none_of_forall p.1 _ (hkey p hp hpe)
    · intro p hp hpflag
      have hpe := hinv p hp hpflag
      rw [getEntityIds_of_isSome ct (prune ct s) hlookP, hts]
      intro hin
      obtain ⟨q, hq, hq1⟩ := List.mem_map.mp hin
      exact hkey p hp hpe q hq hq1

/-- A demonstration state for prune: one real wrapper (entity 1) and one
EMPTY sentinel (entity 2) in the plain type's set. -/
def pruneDemo : Ecm :=
  ⟨[(11, ⟨[(1, ⟨[5], false, none⟩), (2, ⟨[], true, none⟩)], false⟩)], [], [], 0⟩

theorem prune_removes_exactly_empty_witness :
    lookupL ctPlain.hash pruneDemo.componentMap =
      some ⟨[(1, ⟨[5], false, none⟩), (2, ⟨[], true, none⟩)], false⟩ ∧
    ((([(1, (⟨[5], false, none⟩ : Components)),
        (2, ⟨[], true, none⟩)] : List (EntityId × Components)).map Prod.fst).Nodup) ∧
    (((∀ p ∈ ([(1, (⟨[5], false, none⟩ : Components)),
          (2, ⟨[], true, none⟩)] : List (EntityId × Components)), p.2.elems = []) →
        lookupL ctPlain.hash (prune ctPlain pruneDemo).componentMap = none) ∧
      (∀ p ∈ ([(1, (⟨[5], false, none⟩ : Components)),
          (2, ⟨[], true, none⟩)] : List (EntityId × Components)), p.2.elems ≠ [] →
        (theSet ctPlain (prune ctPlain pruneDemo)).get p.1 = some p.2) ∧
      (∀ p ∈ ([(1, (⟨[5], false, none⟩ : Components)),
          (2, ⟨[], true, none⟩)] : List (EntityId × Components)), p.2.elems = [] →
        (theSet ctPlain (prune ctPlain pruneDemo)).get p.1 = none) ∧
      (∀ p ∈ ([(1, (⟨[5], false, none⟩ : Components)),
          (2, ⟨[], true, none⟩)] : List (EntityId × Components)), p.2.empty = true →
        p.1 ∉ getEntityIds ctPlain (prune ctPlain pruneDemo))) :=
  ⟨rfl, by decide,
    prune_removes_exactly_empty ctPlain pruneDemo
      ⟨[(1, ⟨[5], false, none⟩), (2, ⟨[], true, none⟩)], false⟩ rfl (by decide)
      (by
        intro p hp h
        rcases List.mem_cons.mp hp with h1 | h2
        · rw [h1] at h
          exact absurd h (by decide)
        · rcases List.mem_cons.mp h2 with h3 | h4
          · rw [h3]
          · exact absurd h4 (List.not_mem_nil p))⟩

/-- The public ECM operations, for stating reachability properties.  The
singleton get is taken with a null-initialised scan pointer (the intended
reading of the source). -/
inductive Op where
  | opAdd (ct : CompType) (eId : EntityId) (v : Int)
  | opGet (ct : CompType) (eId : EntityId)
  | opGetSingleton (ct : CompType)
  | opOverwrite (ct : CompType) (eId : EntityId) (v : Int)
  | opClear (ct : CompType)
  | opClearByTag (th : Nat)
  | opClearEntity (eId : EntityId)
  | opClearByEntity (ct : CompType) (eId : EntityId)
  | opPrune (ct : CompType)
  | opRegister (ct : CompType) (fn : EntityId → Int → Int)

def step : Op → Ecm → Ecm
  | Op.opAdd ct e v, s => add ct e v s
  | Op.opGet ct e, s => (getComponents ct e s).2
  | Op.opGetSingleton ct, s => (getSingleton ct none s).2
  | Op.opOverwrite ct e v, s => overwrite ct e v s
  | Op.opClear ct, s => clear ct s
  | Op.opClearByTag th, s => clearByTag th s
  | Op.opClearEntity e, s => clearEntity e s
  | Op.opClearByEntity ct e, s => clearByEntity ct e s
  | Op.opPrune ct, s => prune ct s
  | Op.opRegister ct fn, s => registerTransformation ct fn s

def run : List Op → Ecm → Ecm
  | [], s => s
  | op :: rest, s => run rest (step op s)

/-- The tag-index invariant of claim C8: every non-empty tag entry names
only hashes present in the component-type index. -/
def TagInv (s : Ecm) : Prop :=
  ∀ th hs, (th, hs) ∈ s.tagMap → hs ≠ [] →
    ∀ h ∈ hs, (lookupL h s.componentMap).isSome = true

/-- Every hash named by the tag index satisfies a predicate (used to keep
track of which hashes belong to tagged types of the trace). -/
def TagRefs (P : Nat → Prop) (s : Ecm) : Prop :=
  ∀ th hs, (th, hs) ∈ s.tagMap → ∀ h ∈ hs, P h

def InvP (P : Nat → Prop) (s : Ecm) : Prop := TagInv s ∧ TagRefs P s

def opTypes : Op → List CompType
  | Op.opAdd ct _ _ => [ct]
  | Op.opGet ct _ => [ct]
  | Op.opGetSingleton ct => [ct]
  | Op.opOverwrite ct _ _ => [ct]
  | Op.opClear ct => [ct]
  | Op.opClearByTag _ => []
  | Op.opClearEntity _ => []
  | Op.opClearByEntity ct _ => [ct]
  | Op.opPrune ct => [ct]
  | Op.opRegister ct _ => [ct]

def typesOf : List Op → List CompType
  | [] => []
  | op :: rest => opTypes op ++ typesOf rest

/-- The operations under which the invariant is preserved: everything
except clearByTag and except clear or prune of a tagged type. -/
def safeB : Op → Bool
  | Op.opClear ct => decide (tagsOf ct = [])
  | Op.opPrune ct => decide (tagsOf ct = [])
  | Op.opClearByTag _ => false
  | _ => true

/-- Distinct component types of the trace carry distinct hashes (type_info
hashes are injective). -/
def coherentB (ops : List Op) : Bool :=
  (typesOf ops).all (fun ct => (typesOf ops).all (fun ct' =>
    decide (ct.hash = ct'.hash → tagsOf ct = tagsOf ct')))

/-- The per-operation obligations of the preservation argument. -/
def OkOp (P : Nat → Prop) : Op → Prop
  | Op.opClear ct => ¬P ct.hash
  | Op.opPrune ct => ¬P ct.hash
  | Op.opClearByTag _ => False
  | op => ∀ ct ∈ opTypes op, tagsOf ct ≠ [] → P ct.hash

theorem mem_of_lookupL {α : Type} (k : Nat) (v : α) (m : List (Nat × α))
    (h : lookupL k m = some v) : (k, v) ∈ m := by
  induction m with
  | nil => cases h
  | cons p rest ih =>
    by_cases hp : p.1 = k
    · simp only [lookupL, if_pos hp] at h
      have hpv : p = (k, v) := by
        cases p
        cases h
        cases hp
        rfl
      rw [← hpv]
      exact List.mem_cons_self p rest
    · simp only [lookupL, if_neg hp] at h
      exact List.mem_cons_of_mem p (ih h)

theorem typesOf_mem (ops : List Op) (op : Op) (hop : op ∈ ops) (ct : CompType)
    (hct : ct ∈ opTypes op) : ct ∈ typesOf ops := by
  induction ops with
  | nil => cases hop
  | cons o rest ih =>
    show ct ∈ opTypes o ++ typesOf rest
    rcases List.mem_cons.mp hop with h | h
    · exact List.mem_append.mpr (Or.inl (h ▸ hct))
    · exact List.mem_append.mpr (Or.inr (ih h))

theorem invP_mono (P : Nat → Prop) (s s' : Ecm)
    (hinv : InvP P s) (ht : s'.tagMap = s.tagMap)
    (hm : ∀ h, (lookupL h s.componentMap).isSome = true →
      (lookupL h s'.componentMap).isSome = true) : InvP P s' := by
  obtain ⟨h1, h2⟩ := hinv
  constructor
  · intro th hs hmem hne h hh
    rw [ht] at hmem
    exact hm h (h1 th hs hmem hne h hh)
  · intro th hs hmem h hh
    rw [ht] at hmem
    exact h2 th hs hmem h hh

theorem invP_erase (P : Nat → Prop) (s s' : Ecm) (k : Nat)
    (hinv : InvP P s) (hnp : ¬P k) (ht : s'.tagMap = s.tagMap)
    (hc : s'.componentMap = eraseL k s.componentMap) : InvP P s' := by
  obtain ⟨h1, h2⟩ := hinv
  constructor
  · intro th hs hmem hne h hh
    rw [ht] at hmem
    have hP := h2 th hs hmem h hh
    have hne2 : h ≠ k := fun e => hnp (e ▸ hP)
    rw [hc, lookupL_eraseL_ne k h _ hne2]
    exact h1 th hs hmem hne h hh
  · intro th hs hmem h hh
    rw [ht] at hmem
    exact h2 th hs hmem h hh

theorem invP_warn (P : Nat → Prop) (s : Ecm) (hinv : InvP P s) (wn : Nat) :
    InvP P { s with warnings := wn } :=
  invP_mono P s _ hinv rfl (fun _ hh => hh)

theorem invP_update (P : Nat → Prop) (s : Ecm) (hinv : InvP P s) (k : Nat) (n : SparseSet) :
    InvP P { s with componentMap := updateL k n s.componentMap } :=
  invP_mono P s _ hinv rfl (fun h hh => by
    show (lookupL h (updateL k n s.componentMap)).isSome = true
    rw [isSome_lookupL_updateL]
    exact hh)

theorem invP_register (P : Nat → Prop) (ct : CompType) (fn : EntityId → Int → Int)
    (s : Ecm) (hinv : InvP P s) : InvP P (registerTransformation ct fn s) :=
  invP_mono P s _ hinv rfl (fun _ hh => hh)

theorem invP_clearEntity (P : Nat → Prop) (e : EntityId) (s : Ecm) (hinv : InvP P s) :
    InvP P (clearEntity e s) :=
  invP_mono P s _ hinv rfl (fun h hh => by
    show (lookupL h (mapValsL (fun cSet => cSet.erase e) s.componentMap)).isSome = true
    rw [lookupL_mapValsL]
    cases hx : lookupL h s.componentMap with
    | none => rw [hx] at hh; cases hh
    | some _ => rfl)

theorem tagInsert_mem (th h : Nat) (tm : List (Nat × List Nat)) (th' : Nat)
    (hs' : List Nat) (hmem : (th', hs') ∈ tagInsert th h tm) :
    ∀ x ∈ hs', (∃ hs, (th', hs) ∈ tm ∧ x ∈ hs) ∨ x = h := by
  unfold tagInsert at hmem
  cases hl : lookupL th tm with
  | none =>
    rw [hl] at hmem
    rcases List.mem_append.mp hmem with hin | hnew
    · exact fun x hx => Or.inl ⟨hs', hin, hx⟩
    · intro x hx
      have hps : hs' = [h] := congrArg Prod.snd (List.mem_singleton.mp hnew)
      rw [hps] at hx
      exact Or.inr (List.mem_singleton.mp hx)
  | some hs0 =>
    rw [hl] at hmem
    have htm0 : (th, hs0) ∈ tm := mem_of_lookupL th hs0 tm hl
    obtain ⟨q, hq, hq1⟩ := List.mem_map.mp hmem
    by_cases hqth : q.1 = th
    · rw [if_pos hqth] at hq1
      have hth' : th' = th := (congrArg Prod.fst hq1).symm
      have hhs : hs' = (if h ∈ hs0 then hs0 else hs0 ++ [h]) :=
        (congrArg Prod.snd hq1).symm
      intro x hx
      rw [hhs] at hx
      by_cases hh0 : h ∈ hs0
      · rw [if_pos hh0] at hx
        exact Or.inl ⟨hs0, hth' ▸ htm0, hx⟩
      · rw [if_neg hh0] at hx
        rcases List.mem_append.mp hx with hx1 | hx2
        · exact Or.inl ⟨hs0, hth' ▸ htm0, hx1⟩
        · exact Or.inr (List.mem_singleton.mp hx2)
    · rw [if_neg hqth] at hq1
      rw [hq1] at hq
      exact fun x hx => Or.inl ⟨hs', hq, hx⟩

theorem tagFold_mem (ths : List Nat) (h : Nat) (tm : List (Nat × List Nat))
    (th' : Nat) (hs' : List Nat)
    (hmem : (th', hs') ∈ ths.foldl
      (fun tm th => if th = 0 then tm else tagInsert th h tm) tm) :
    ∀ x ∈ hs', (∃ hs, (th', hs) ∈ tm ∧ x ∈ hs) ∨ x = h := by
  induction ths generalizing tm with
  | nil => exact fun x hx => Or.inl ⟨hs', hmem, hx⟩
  | cons th0 ths ih =>
    rw [List.foldl_cons] at hmem
    by_cases h0 : th0 = 0
    · rw [if_pos h0] at hmem
      exact ih tm hmem
    · rw [if_neg h0] at hmem
      intro x hx
      rcases ih _ hmem x hx with ⟨hs, hhs, hxs⟩ | hx2
      · rcases tagInsert_mem th0 h tm th' hs hhs x hxs with h3 | h4
        · exact Or.inl h3
        · exact Or.inr h4
      · exact Or.inr hx2

theorem tagFold_id (ths : List Nat) (h : Nat) (tm : List (Nat × List Nat))
    (hz : ∀ th ∈ ths, th = 0) :
    ths.foldl (fun tm th => if th = 0 then tm else tagInsert th h tm) tm = tm := by
  induction ths generalizing tm with
  | nil => rfl
  | cons th0 ths ih =>
    rw [List.foldl_cons, if_pos (hz th0 (List.mem_cons_self th0 ths))]
    exact ih tm (fun th ht => hz th (List.mem_cons_of_mem th0 ht))

theorem invP_createComponentSet (P : Nat → Prop) (ct : CompType) (s : Ecm)
    (hinv : InvP P s) (hP : tagsOf ct ≠ [] → P ct.hash) :
    InvP P (createComponentSet ct s) := by
  by_cases htag : tagsOf ct = []
  · have hz : ∀ th ∈ getTagHashes ct, th = 0 := by
      intro th ht
      by_contra hth
      have hmm : th ∈ tagsOf ct :=
        List.mem_filter.mpr ⟨ht, decide_eq_true_eq.mpr hth⟩
      rw [htag] at hmm
      exact List.not_mem_nil th hmm
    refine invP_mono P s _ hinv ?_ ?_
    · show (getTagHashes ct).foldl
        (fun tm th => if th = 0 then tm else tagInsert th ct.hash tm) s.tagMap = s.tagMap
      exact tagFold_id (getTagHashes ct) ct.hash s.tagMap hz
    · intro h hh
      exact isSome_lookupL_emplaceL ct.hash h emptySet s.componentMap hh
  · obtain ⟨h1, h2⟩ := hinv
    constructor
    · intro th hs hmem hne h hh
      rcases tagFold_mem (getTagHashes ct) ct.hash s.tagMap th hs hmem h hh with
        ⟨hs0, hh0, hx0⟩ | hxe
      · refine isSome_lookupL_emplaceL ct.hash h emptySet s.componentMap ?_
        refine h1 th hs0 hh0 ?_ h hx0
        intro he0
        rw [he0] at hx0
        exact List.not_mem_nil h hx0
      · rw [hxe]
        exact lookupL_emplaceL_self_isSome ct.hash emptySet s.componentMap
    · intro th hs hmem h hh
      rcases tagFold_mem (getTagHashes ct) ct.hash s.tagMap th hs hmem h hh with
        ⟨hs0, hh0, hx0⟩ | hxe
      · exact h2 th hs0 hh0 h hx0
      · rw [hxe]
        exact hP htag

theorem invP_getComponentSet (P : Nat → Prop) (ct : CompType) (s : Ecm)
    (hinv : InvP P s) (hP : tagsOf ct ≠ [] → P ct.hash) :
    InvP P (getComponentSet ct s) := by
  unfold getComponentSet
  split
  · exact hinv
  · exact invP_createComponentSet P ct s hinv hP

theorem invP_addComponent (P : Nat → Prop) (ct : CompType) (e : EntityId) (v : Int)
    (s : Ecm) (hinv : InvP P s) (hP : tagsOf ct ≠ [] → P ct.hash) :
    InvP P (addComponent ct e v s) := by
  have h1 := invP_getComponentSet P ct s hinv hP
  have h2 : InvP P (if (theSet ct (getComponentSet ct s)).locked = true
      then { getComponentSet ct s with warnings := (getComponentSet ct s).warnings + 1 }
      else getComponentSet ct s) := by
    split
    · exact invP_warn P _ h1 _
    · exact h1
  simp only [addComponent]
  split
  · split
    · exact h2
    · exact invP_update P _ h2 ct.hash _
  · split
    · exact invP_warn P _ h2 _
    · exact invP_update P _ h2 ct.hash _

theorem invP_add (P : Nat → Prop) (ct : CompType) (e : EntityId) (v : Int)
    (s : Ecm) (hinv : InvP P s) (hP : tagsOf ct ≠ [] → P ct.hash) :
    InvP P (add ct e v s) := by
  unfold add
  split
  · exact hinv
  · split
    · exact invP_update P _ (invP_addComponent P ct e v s hinv hP) ct.hash _
    · exact invP_addComponent P ct e v s hinv hP

theorem invP_getComponents (P : Nat → Prop) (ct : CompType) (e : EntityId)
    (s : Ecm) (hinv : InvP P s) (hP : tagsOf ct ≠ [] → P ct.hash) :
    InvP P (getComponents ct e s).2 := by
  have h1 := invP_getComponentSet P ct s hinv hP
  simp only [getComponents]
  split
  · exact h1
  · exact invP_update P _ h1 ct.hash _

theorem invP_getSingleton (P : Nat → Prop) (ct : CompType) (s : Ecm)
    (hinv : InvP P s) (hP : tagsOf ct ≠ [] → P ct.hash) :
    InvP P (getSingleton ct none s).2 := by
  have h1 := invP_getComponentSet P ct s hinv hP
  have h2 := invP_getComponents P ct 0 (getComponentSet ct s) h1 hP
  simp only [getSingleton]
  split
  · exact h1
  · cases hEq : getComponents ct 0 (getComponentSet ct s) with
    | mk o s2 =>
      rw [hEq] at h2
      cases o
      · exact h2
      · exact h2

theorem invP_overwrite (P : Nat → Prop) (ct : CompType) (e : EntityId) (v : Int)
    (s : Ecm) (hinv : InvP P s) (hP : tagsOf ct ≠ [] → P ct.hash) :
    InvP P (overwrite ct e v s) := by
  have h1 := invP_getComponentSet P ct s hinv hP
  simp only [overwrite]
  split
  · exact hinv
  · split
    · split
      all_goals split
      · exact invP_warn P _ h1 _
      · exact invP_warn P _ h1 _
      · exact h1
      · exact invP_warn P _ h1 _
    · split
      · exact invP_warn P _ h1 _
      · exact invP_update P _ h1 ct.hash _

theorem invP_prune (P : Nat → Prop) (ct : CompType) (s : Ecm)
    (hinv : InvP P s) (hnp : ¬P ct.hash) : InvP P (prune ct s) := by
  simp only [prune]
  split
  · exact hinv
  · split
    · exact invP_erase P s _ ct.hash hinv hnp rfl rfl
    · split
      · exact invP_erase P s _ ct.hash hinv hnp rfl rfl
      · exact invP_update P s hinv ct.hash _

theorem invP_clear (P : Nat → Prop) (ct : CompType) (s : Ecm)
    (hinv : InvP P s) (hnp : ¬P ct.hash) : InvP P (clear ct s) :=
  invP_erase P s _ ct.hash hinv hnp rfl rfl

theorem invP_clearByEntity (P : Nat → Prop) (ct : CompType) (e : EntityId)
    (s : Ecm) (hinv : InvP P s) (hP : tagsOf ct ≠ [] → P ct.hash) :
    InvP P (clearByEntity ct e s) :=
  invP_update P _ (invP_getComponentSet P ct s hinv hP) ct.hash _

theorem invP_step (P : Nat → Prop) (op : Op) (s : Ecm)
    (hs : safeB op = true) (hok : OkOp P op) (hinv : InvP P s) :
    InvP P (step op s) := by
  cases op with
  | opAdd ct e v =>
    exact invP_add P ct e v s hinv (hok ct (List.mem_cons_self ct []))
  | opGet ct e =>
    exact invP_getComponents P ct e s hinv (hok ct (List.mem_cons_self ct []))
  | opGetSingleton ct =>
    exact invP_getSingleton P ct s hinv (hok ct (List.mem_cons_self ct []))
  | opOverwrite ct e v =>
    exact invP_overwrite P ct e v s hinv (hok ct (List.mem_cons_self ct []))
  | opClear ct =>
    exact invP_clear P ct s hinv hok
  | opClearByTag th =>
    exact absurd hs (by simp [safeB])
  | opClearEntity e =>
    exact invP_clearEntity P e s hinv
  | opClearByEntity ct e =>
    exact invP_clearByEntity P ct e s hinv (hok ct (List.mem_cons_self ct []))
  | opPrune ct =>
    exact invP_prune P ct s hinv hok
  | opRegister ct fn =>
    exact invP_register P ct fn s hinv

theorem invP_run (P : Nat → Prop) (ops : List Op) (s : Ecm)
    (hs : ∀ op ∈ ops, safeB op = true) (hok : ∀ op ∈ ops, OkOp P op)
    (hinv : InvP P s) : InvP P (run ops s) := by
  induction ops generalizing s with
  | nil => exact hinv
  | cons op rest ih =>
    exact ih (step op s) (fun o ho => hs o (List.mem_cons_of_mem op ho))
      (fun o ho => hok o (List.mem_cons_of_mem op ho))
      (invP_step P op s (hs op (List.mem_cons_self op rest))
        (hok op (List.mem_cons_self op rest)) hinv)

/-- Claim C8 (amended): the tag-index invariant holds in every state
reachable from a fresh ECM by operations that never drop a component set
referenced by a surviving tag entry: add, get (both forms), overwrite,
clearEntity, clearByEntity and registerTransformation for any type, plus
clear and prune of untagged types, with distinct trace types hashing
differently.  It can be broken by clear or all-empty prune of a tagged
type (see the counterexample) and by clearByTag of a type that carries
further tags, which the source leaves dangling. -/
theorem tag_index_invariant_safe_ops (ops : List Op)
    (h1 : ops.all safeB = true) (h2 : coherentB ops = true) :
    TagInv (run ops ecmEmpty) := by
  have hsafe : ∀ op ∈ ops, safeB op = true := List.all_eq_true.mp h1
  have hcoh : ∀ ct ∈ typesOf ops, ∀ ct' ∈ typesOf ops,
      ct.hash = ct'.hash → tagsOf ct = tagsOf ct' := by
    intro ct hct ct' hct' hh
    have ha := List.all_eq_true.mp (List.all_eq_true.mp h2 ct hct) ct' hct'
    exact decide_eq_true_eq.mp ha hh
  have hok : ∀ op ∈ ops,
      OkOp (fun h => ∃ ct, ct ∈ typesOf ops ∧ ct.hash = h ∧ tagsOf ct ≠ []) op := by
    intro op hop
    have hsub : ∀ ct ∈ opTypes op, ct ∈ typesOf ops :=
      fun ct hct => typesOf_mem ops op hop ct hct
    cases op with
    | opClear ct =>
      have htag : tagsOf ct = [] := by
        have hb := hsafe _ hop
        simp only [safeB] at hb
        exact decide_eq_true_eq.mp hb
      rintro ⟨ct', hct', hh, htag'⟩
      refine htag' ?_
      rw [hcoh ct' hct' ct (hsub ct (List.mem_cons_self ct [])) hh, htag]
    | opPrune ct =>
      have htag : tagsOf ct = [] := by
        have hb := hsafe _ hop
        simp only [safeB] at hb
        exact decide_eq_true_eq.mp hb
      rintro ⟨ct', hct', hh, htag'⟩
      refine htag' ?_
      rw [hcoh ct' hct' ct (hsub ct (List.mem_cons_self ct [])) hh, htag]
    | opClearByTag th =>
      exact absurd (hsafe _ hop) (by simp [safeB])
    | opAdd ct e v =>
      exact fun ct' hct' htag => ⟨ct', hsub ct' hct', rfl, htag⟩
    | opGet ct e =>
      exact fun ct' hct' htag => ⟨ct', hsub ct' hct', rfl, htag⟩
    | opGetSingleton ct =>
      exact fun ct' hct' htag => ⟨ct', hsub ct' hct', rfl, htag⟩
    | opOverwrite ct e v =>
      exact fun ct' hct' htag => ⟨ct', hsub ct' hct', rfl, htag⟩
    | opClearEntity e =>
      exact fun ct' hct' htag => ⟨ct', hsub ct' hct', rfl, htag⟩
    | opClearByEntity ct e =>
      exact fun ct' hct' htag => ⟨ct', hsub ct' hct', rfl, htag⟩
    | opRegister ct fn =>
      exact fun ct' hct' htag => ⟨ct', hsub ct' hct', rfl, htag⟩
  have hinv0 : InvP (fun h => ∃ ct, ct ∈ typesOf ops ∧ ct.hash = h ∧ tagsOf ct ≠ [])
      ecmEmpty := by
    constructor
    · intro th hs hmem
      cases hmem
    · intro th hs hmem
      cases hmem
  exact (invP_run _ ops ecmEmpty hsafe hok hinv0).1

/-- Claim C8 counterexample: after add of an Event-tagged type and then
clear of that same type — a reachable state not produced by clearByTag —
the tag index still names the type's hash while the component-type index
no longer holds it. -/
theorem tag_index_dangling_after_clear_cex :
    ¬TagInv (run [Op.opAdd ctEvent 1 0, Op.opClear ctEvent] ecmEmpty) := by
  intro h
  have h1 : (run [Op.opAdd ctEvent 1 0, Op.opClear ctEvent] ecmEmpty).tagMap =
      [(1, [14])] := rfl
  have h2 : (run [Op.opAdd ctEvent 1 0, Op.opClear ctEvent] ecmEmpty).componentMap =
      [] := rfl
  have h3 := h 1 [14] (by rw [h1]; exact List.mem_singleton.mpr rfl) (by decide) 14
    (List.mem_singleton.mpr rfl)
  rw [h2] at h3
  exact absurd h3 (by decide)

theorem tag_index_invariant_safe_ops_witness :
    ([Op.opAdd ctEvent 1 0, Op.opGet ctPlain 2, Op.opClear ctPlain].all safeB = true) ∧
    (coherentB [Op.opAdd ctEvent 1 0, Op.opGet ctPlain 2, Op.opClear ctPlain] = true) ∧
    TagInv (run [Op.opAdd ctEvent 1 0, Op.opGet ctPlain 2, Op.opClear ctPlain] ecmEmpty) :=
  ⟨rfl, rfl, tag_index_invariant_safe_ops
    [Op.opAdd ctEvent 1 0, Op.opGet ctPlain 2, Op.opClear ctPlain] rfl rfl⟩

end ECS
